import Mathlib

/-!
Verification of the udbg debugger core (Linux/ptrace back-end).

This file shallowly embeds the memory-access derived operations of
`src/memory.rs` and the breakpoint registry / event-dispatcher state machine
of `src/os/linux/udbg.rs`, and proves the frozen specification claims about
them.  Machine pointers and bytes are modelled as `Nat`; the fallible
`read_memory` / `write_memory` primitives are modelled as oracles returning
`Option`, matching the Rust trait signatures
`read_memory(addr, buf) -> Option<slice>` and
`write_memory(addr, bytes) -> Option<usize>`.
-/

namespace Udbg

/-! ## Memory primitives as oracles (src/memory.rs traits) -/

/-- Model of `ReadMemory::read_memory`: given an address and a requested
byte count, returns the bytes actually read (a prefix of the request, as the
Rust method returns a sub-slice of the output buffer), or `none` on a fully
failed access. -/
abbrev ReadOracle := Nat → Nat → Option (List Nat)

/-- Model of `WriteMemory::write_memory`: given an address and the bytes to
write, returns the number of bytes written, or `none` on failure. -/
abbrev WriteOracle := Nat → List Nat → Option Nat

/-! ## read_value (src/memory.rs lines 115-130)

Rust: zero-initialise a `T`, read `size_of::<T>()` bytes over it, and return
the value only if the returned slice has exactly that length.  A value of
type `T` is modelled as its list of `size_of::<T>()` bytes. -/

/-- `ReadMemoryUtils::read_value::<T>`: `sizeT` is `size_of::<T>()`.  The
candidate value is the zero-initialised byte block overwritten by the bytes
actually read; it is returned only when the full size was delivered. -/
def read_value (sizeT : Nat) (mem : ReadOracle) (address : Nat) : Option (List Nat) :=
  match mem address sizeT with
  | none => none
  | some buf =>
      let val := buf.take sizeT ++ (List.replicate sizeT 0).drop (min buf.length sizeT)
      if buf.length = sizeT then some val else none

/-! ## read_util (src/memory.rs lines 22-60)

Rust keeps a persistent 100-element buffer (`zeroed()` initially), reads
`100 * size_of::<T>()` bytes into it each iteration, scans the WHOLE buffer
for the first element satisfying the predicate, appends the prefix before
that position (truncated so the result never exceeds `max_count`), and
continues — advancing the address by the bytes actually read — unless the
predicate hit, the truncation fired, or the read returned `None`. -/

/-- The first index of `l` satisfying `pred` (Rust `Iterator::position`). -/
def position {T : Type} (pred : T → Bool) : List T → Option Nat
  | [] => none
  | x :: xs => if pred x then some 0 else (position pred xs).map (· + 1)

/-- Rust `match buf.iter().position(pred) { None => buf.len(), Some(p) => p }`. -/
def posOf {T : Type} (pred : T → Bool) (l : List T) : Nat :=
  match position pred l with
  | none => l.length
  | some p => p

/-- The loop-carried state of `read_util`: the persistent 100-element
buffer, the accumulated result and the current address. -/
structure RuState (T : Type) where
  buf : List T
  result : List T
  addr : Nat
deriving DecidableEq

/-- One iteration of `read_util` either terminates with a result or
continues with a new state. -/
inductive RuStep (T : Type) where
  | done (result : List T)
  | next (s : RuState T)
deriving DecidableEq

/-- One iteration of the `read_util` loop.  `mem s.addr` models
`read_memory(addr, 100 * size_of::<T>() bytes)` returning the elements
actually read; the buffer is overwritten in place by the bytes read, so
elements beyond a short read keep their previous (stale) contents. -/
def read_util_step {T : Type} (pred : T → Bool) (maxCount sizeT : Nat)
    (mem : Nat → Option (List T)) (s : RuState T) : RuStep T :=
  match mem s.addr with
  | none => .done s.result
  | some bs =>
      let buf := (bs ++ s.buf.drop bs.length).take 100
      if s.result.length + posOf pred buf > maxCount then
        .done (s.result ++ buf.take (maxCount - s.result.length))
      else
        match position pred buf with
        | some p => .done (s.result ++ buf.take p)
        | none => .next ⟨buf, s.result ++ buf, s.addr + bs.length * sizeT⟩

/-- The `read_util` loop, fuelled.  Every continuing iteration appends a
full 100-element buffer under the `max_count` bound, so `maxCount + 2`
units of fuel (supplied by `read_util`) are never exhausted. -/
def read_util_loop {T : Type} (pred : T → Bool) (maxCount sizeT : Nat)
    (mem : Nat → Option (List T)) : Nat → RuState T → List T
  | 0, s => s.result
  | fuel + 1, s =>
      match read_util_step pred maxCount sizeT mem s with
      | .done r => r
      | .next s' => read_util_loop pred maxCount sizeT mem fuel s'

/-- `ReadMemoryUtils::read_util`: `z` is the zero element of `T` (the
buffer starts `zeroed()`), `sizeT` is `size_of::<T>()`. -/
def read_util {T : Type} (z : T) (pred : T → Bool) (maxCount sizeT : Nat)
    (mem : Nat → Option (List T)) (address : Nat) : List T :=
  read_util_loop pred maxCount sizeT mem (maxCount + 2) ⟨List.replicate 100 z, [], address⟩

/-- `ReadMemoryUtils::read_util_eq` specialised to byte elements. -/
def read_util_eq (z val maxBytes : Nat) (mem : Nat → Option (List Nat)) (address : Nat) :
    List Nat :=
  read_util z (fun x => x == val) maxBytes 1 mem address

/-! ## read_cstring (src/memory.rs lines 83-89) -/

/-- `ReadMemoryUtils::read_cstring`: read-until byte zero with cap
`max.unwrap_or(1000)`; reject an empty result or a single byte below the
space character (32). -/
def read_cstring (mem : Nat → Option (List Nat)) (address : Nat) (max : Option Nat) :
    Option (List Nat) :=
  let result := read_util_eq 0 0 (max.getD 1000) mem address
  if result.length = 0 ∨ (result.length = 1 ∧ result.headD 0 < 32) then none
  else some result

/-! ## write_cstring (src/memory.rs lines 181-184) -/

/-- `WriteMemoryUtils::write_cstring`: write the payload, then one zero
byte just past it; `none` if either write fails, else the sum of the two
reported lengths. -/
def write_cstring (wmem : WriteOracle) (address : Nat) (data : List Nat) : Option Nat :=
  match wmem address data with
  | none => none
  | some r1 =>
      match wmem (address + data.length) [0] with
      | none => none
      | some r2 => some (r1 + r2)

/-! ## Target memory (the `self.ps` read/write primitive of the Linux adaptor)

`Process::read` / `Process::write` are modelled as byte-addressed memory with
per-address accessibility: a read or write at an inaccessible base address
fails (`none`); an accessible access transfers the full request.  This is the
all-or-nothing abstraction of ptrace peek/poke that the breakpoint claims
depend on. -/

/-- Tracee memory: accessibility predicates and byte contents. -/
structure Mem where
  readable : Nat → Bool
  writable : Nat → Bool
  content : Nat → Nat

/-- Contents after writing `bs` at `a`. -/
def writeBytes (m : Mem) (a : Nat) (bs : List Nat) : Mem :=
  { m with
    content := fun x => if a ≤ x ∧ x < a + bs.length then bs.getD (x - a) 0 else m.content x }

/-- `Process::write`: number of bytes written (or `none`), with the
resulting memory. -/
def memWrite (m : Mem) (a : Nat) (bs : List Nat) : Option Nat × Mem :=
  if m.writable a then (some bs.length, writeBytes m a bs) else (none, m)

/-- `Process::read`: the bytes at `a`, or `none` when inaccessible. -/
def memRead (m : Mem) (a n : Nat) : Option (List Nat) :=
  if m.readable a then some ((List.range n).map fun i => m.content (a + i)) else none

/-- `CommonAdaptor::readv` (udbg.rs lines 320-333): read `size` bytes into a
zeroed value, succeed only when the full size was read. -/
def readv (m : Mem) (a size : Nat) : Option (List Nat) :=
  match memRead m a size with
  | none => none
  | some bs => if bs.length = size then some bs else none

/-! ## Breakpoints (udbg/mod.rs `Breakpoint`, udbg.rs `CommonAdaptor`) -/

/-- Modelled from the spec: `BP_INSN`, the architecture-specific trap
pattern a soft breakpoint writes (INT3 on x86); its definition is outside
the provided sources.  The claims depend only on it being a fixed non-empty
byte pattern. -/
def BP_INSN : List Nat := [0xCC]

/-- `InnerBpType`: `Soft` stores the original bytes the trap overwrote. -/
inductive InnerBpType where
  | Soft (origin : List Nat)
  | Hard
  | Table
deriving DecidableEq

/-- The `Breakpoint` record (udbg/mod.rs lines 616-626); its id is its
address. -/
structure Bp where
  address : Nat
  enabled : Bool
  temp : Bool
  bpType : InnerBpType
  hitCount : Nat
  hitTid : Option Nat
deriving DecidableEq

/-- Error taxonomy (`UDbgError`), restricted to the kinds the claims use. -/
inductive UDbgError where
  | NotSupport
  | BpExists
  | InvalidAddress
  | MemoryError
  | NoTarget
deriving DecidableEq

/-- The address-keyed breakpoint registry (`bp_map: HashMap<BpID, Arc<Breakpoint>>`),
as an association list with distinct keys maintained by its operations. -/
abbrev BpMap := List (Nat × Bp)

/-- `bp_map.get(&id)`. -/
def bpLookup (m : BpMap) (id : Nat) : Option Bp :=
  (m.find? fun p => p.1 == id).map Prod.snd

/-- `bp_map.insert(id, bp)` (replacing any entry with the same key). -/
def bpInsert (m : BpMap) (id : Nat) (bp : Bp) : BpMap :=
  (id, bp) :: m.filter fun p => p.1 != id

/-- `bp_map.remove(&id)`. -/
def bpRemove (m : BpMap) (id : Nat) : BpMap :=
  m.filter fun p => p.1 != id

/-- `CommonAdaptor::bp_exists` (udbg.rs lines 296-299). -/
def bp_exists (m : BpMap) (id : Nat) : Bool :=
  (bpLookup m id).isSome

/-- `CommonAdaptor::enable_breadpoint` (udbg.rs lines 301-318): for a soft
breakpoint, write the trap pattern (on) or the saved original (off); set the
enabled flag only when `written.unwrap_or(0) > 0`, else `MemoryError`.
Returns the result, the memory after, and the breakpoint after (its
`enabled` cell is shared with the registry entry). -/
def enable_breadpoint (mem : Mem) (bp : Bp) (enable : Bool) :
    Except UDbgError Bool × Mem × Bp :=
  match bp.bpType with
  | .Soft origin =>
      let bytes := if enable then BP_INSN else origin
      match memWrite mem bp.address bytes with
      | (some n, mem') =>
          if n > 0 then (.ok enable, mem', { bp with enabled := enable })
          else (.error .MemoryError, mem', bp)
      | (none, _) => (.error .MemoryError, mem, bp)
  | _ => (.error .NotSupport, mem, bp)

/-- `BpOpt` as used by `add_bp`; `rw` is whether a hardware breakpoint was
requested (`opt.rw.is_some()`). -/
structure BpOpt where
  address : Nat
  enable : Bool
  temp : Bool
  tid : Option Nat
  rw : Bool
deriving DecidableEq

/-- The adaptor state the breakpoint operations touch: the registry, the
tracee memory, and whether the target is merely opened
(`base.status == Opened`, in which case `check_opened` fails). -/
structure DbgState where
  bpMap : BpMap
  mem : Mem
  opened : Bool

/-- `StandardAdaptor::add_bp` (udbg.rs lines 902-938): fail `NotSupport`
when merely opened or when a hardware bp is requested; fail `BpExists` when
the address is registered; read the original bytes (length of `BP_INSN`),
failing `InvalidAddress` when that read fails; insert a soft breakpoint and,
when `enable` was requested, write the trap bytes (an enable failure is
swallowed: the Rust result of `bp.enable(true)` is dropped). -/
def add_bp (st : DbgState) (opt : BpOpt) : Except UDbgError Bp × DbgState :=
  if st.opened then (.error .NotSupport, st)
  else if bp_exists st.bpMap opt.address then (.error .BpExists, st)
  else if opt.rw then (.error .NotSupport, st)
  else
    match readv st.mem opt.address BP_INSN.length with
    | none => (.error .InvalidAddress, st)
    | some origin =>
        let bp : Bp :=
          { address := opt.address, enabled := false, temp := opt.temp,
            bpType := .Soft origin, hitCount := 0, hitTid := opt.tid }
        let map1 := bpInsert st.bpMap opt.address bp
        if opt.enable then
          let r := enable_breadpoint st.mem bp true
          (.ok r.2.2, { st with bpMap := bpInsert map1 opt.address r.2.2, mem := r.2.1 })
        else (.ok bp, { st with bpMap := map1 })

/-- `UDbgBreakpoint::remove` for this back-end (udbg/mod.rs lines 703-719):
disable first (result ignored), then drop the id from the registry. -/
def bp_remove_obj (mem : Mem) (m : BpMap) (bp : Bp) : Mem × BpMap × Bp :=
  let r := enable_breadpoint mem bp false
  (r.2.1, bpRemove m bp.address, r.2.2)

/-- `CommonAdaptor::handle_breakpoint` (udbg.rs lines 469-491) up to the
point the `Breakpoint(bp)` callback is invoked: look the hit address up,
increment the hit count (a shared cell, so the registry entry changes too),
and, when the breakpoint is temp, remove it from the registry.  Returns the
memory, the registry, and the breakpoint the callback receives. -/
def handle_breakpoint_pre (mem : Mem) (m : BpMap) (a : Nat) :
    Option (Mem × BpMap × Bp) :=
  match bpLookup m a with
  | none => none
  | some bp =>
      let bp1 := { bp with hitCount := bp.hitCount + 1 }
      let m1 := bpInsert m a bp1
      if bp1.temp then some (bp_remove_obj mem m1 bp1)
      else some (mem, m1, bp1)

/-- The user callback replies (`UserReply`). -/
inductive UserReply where
  | run (handled : Bool)
  | stepIn
  | stepOut
  | goto (a : Nat)
  | native (n : Nat)
deriving DecidableEq

/-- `CommonAdaptor::handle_reply` (udbg.rs lines 419-463), minus the
ptrace single-step and register refresh (pure OS effects): if a breakpoint
id was supplied and that breakpoint is enabled, disable it (write the
original bytes back).  The source line that would re-enable it after the
step is commented out behind a `TODO`, so nothing restores it here.  Then
translate the reply: `StepOut` asks the disassembler (`check_call`, an
external collaborator, applied to the cached pre-step `pc`) for the address
past a call-like instruction and downgrades to `StepIn` when there is none;
`Goto` supplies its target; either target gets a temp enabled int3
breakpoint via `add_bp` (result dropped). -/
def handle_reply (st : DbgState) (reply : UserReply) (bpid : Option Nat)
    (checkCall : Nat → Option Nat) (pc : Nat) : UserReply × DbgState :=
  let st1 : DbgState :=
    match bpid with
    | none => st
    | some id =>
        match bpLookup st.bpMap id with
        | none => st
        | some bp =>
            if bp.enabled then
              let r := enable_breadpoint st.mem bp false
              { st with mem := r.2.1, bpMap := bpInsert st.bpMap id r.2.2 }
            else st
  let (reply1, tempAddr) : UserReply × Option Nat :=
    match reply with
    | .stepOut =>
        match checkCall pc with
        | some a => (.stepOut, some a)
        | none => (.stepIn, none)
    | .goto a => (.goto a, some a)
    | r => (r, none)
  let st2 : DbgState :=
    match tempAddr with
    | some a =>
        (add_bp st1 { address := a, enable := true, temp := true, tid := none, rw := false }).2
    | none => st1
  (reply1, st2)

/-! ## The dispatcher's Stopped-status handling (udbg.rs `DefaultEngine::handle`,
lines 1073-1131) -/

/-- The signals the `Stopped` arm distinguishes. -/
inductive Sig where
  | SIGSTOP
  | SIGTRAP
  | SIGILL
  | other (n : Nat)
deriving DecidableEq

/-- The candidate breakpoint address (udbg.rs lines 1111-1116):
`if sig == SIGTRAP && ip > 0 { ip - 1 } else { ip }`. -/
def candidate_address (sig : Sig) (ip : Nat) : Nat :=
  if sig = Sig.SIGTRAP ∧ 0 < ip then ip - 1 else ip

/-- What the `Stopped` arm does with the event. -/
inductive StopOutcome where
  | initBp
  | threadInserted
  | clonedSwallowed
  | bpProtocol (a : Nat)
  | exception (sig : Sig)
deriving DecidableEq

/-- The `WaitStatus::Stopped` arm of `DefaultEngine::handle`: the very first
`SIGSTOP`/`SIGTRAP` fires `InitBp`; a `SIGSTOP` of a new or just-cloned
thread is swallowed; on `SIGTRAP`/`SIGILL` the candidate breakpoint address
is computed, the cached pc is rewritten to it, and the breakpoint protocol
is entered exactly when the registry contains that address — otherwise the
stop falls through to an `Exception` callback.  Returns the outcome and the
cached pc after the arm. -/
def handle_stopped (inited : Bool) (threads cloned : List Nat) (tid : Nat)
    (sig : Sig) (ip : Nat) (m : BpMap) : StopOutcome × Nat :=
  if inited = false ∧ (sig = Sig.SIGSTOP ∨ sig = Sig.SIGTRAP) then (.initBp, ip)
  else
    match sig with
    | .SIGSTOP =>
        if threads.contains tid = false then (.threadInserted, ip)
        else if cloned.contains tid then (.clonedSwallowed, ip)
        else (.exception .SIGSTOP, ip)
    | .SIGTRAP | .SIGILL =>
        let a := candidate_address sig ip
        if bp_exists m a then (.bpProtocol a, a) else (.exception sig, a)
    | s => (.exception s, ip)

/-! ## Helper lemmas -/

lemma posOf_nil {T : Type} (pred : T → Bool) : posOf pred ([] : List T) = 0 := rfl

lemma posOf_cons {T : Type} (pred : T → Bool) (a : T) (t : List T) :
    posOf pred (a :: t) = if pred a then 0 else posOf pred t + 1 := by
  by_cases h : pred a
  · simp [posOf, position, h]
  · simp only [posOf, position, h, if_neg, Bool.false_eq_true, not_false_iff, if_false]
    cases hp : position pred t <;> simp [hp, List.length_cons]

lemma posOf_le_length {T : Type} (pred : T → Bool) (l : List T) :
    posOf pred l ≤ l.length := by
  induction l with
  | nil => simp [posOf_nil]
  | cons a t ih =>
    rw [posOf_cons]
    by_cases h : pred a
    · simp [h]
    · simp [h, List.length_cons]; omega

lemma position_take {T : Type} (pred : T → Bool) :
    ∀ (l : List T) (k : Nat), k ≤ posOf pred l → ∀ x ∈ l.take k, pred x = false := by
  intro l
  induction l with
  | nil => intro k _ x hx; simp at hx
  | cons a t ih =>
    intro k hk x hx
    rw [posOf_cons] at hk
    by_cases ha : pred a
    · rw [if_pos ha] at hk
      interval_cases k
      simp at hx
    · rw [if_neg ha] at hk
      cases k with
      | zero => simp at hx
      | succ k' =>
        rw [List.take_succ_cons, List.mem_cons] at hx
        rcases hx with h | h
        · subst h; simpa using ha
        · exact ih k' (by omega) x h

lemma position_none_all {T : Type} (pred : T → Bool) (l : List T)
    (h : position pred l = none) : ∀ x ∈ l, pred x = false := by
  have := position_take pred l l.length (by simp [posOf, h])
  simpa using this

/-- The single-step case analysis of `read_util`: a failed read stops with
the accumulated result. -/
lemma read_util_step_none {T : Type} (pred : T → Bool) (maxC sizeT : Nat)
    (mem : Nat → Option (List T)) (s : RuState T) (h : mem s.addr = none) :
    read_util_step pred maxC sizeT mem s = .done s.result := by
  unfold read_util_step; rw [h]

/-- The truncation case: accumulating `posOf` more elements would exceed
`maxCount`, so the appended prefix is cut to `maxCount` total and the loop
stops. -/
lemma read_util_step_trunc {T : Type} (pred : T → Bool) (maxC sizeT : Nat)
    (mem : Nat → Option (List T)) (s : RuState T) (bs : List T)
    (h : mem s.addr = some bs)
    (ht : s.result.length + posOf pred ((bs ++ s.buf.drop bs.length).take 100) > maxC) :
    read_util_step pred maxC sizeT mem s =
      .done (s.result ++
        ((bs ++ s.buf.drop bs.length).take 100).take (maxC - s.result.length)) := by
  unfold read_util_step; rw [h]; simp only [ht, if_true, gt_iff_lt]

/-- The predicate-hit case: the prefix before the hit fits, so it is
appended and the loop stops. -/
lemma read_util_step_hit {T : Type} (pred : T → Bool) (maxC sizeT : Nat)
    (mem : Nat → Option (List T)) (s : RuState T) (bs : List T) (p : Nat)
    (h : mem s.addr = some bs)
    (hp : position pred ((bs ++ s.buf.drop bs.length).take 100) = some p)
    (ht : ¬ s.result.length + posOf pred ((bs ++ s.buf.drop bs.length).take 100) > maxC) :
    read_util_step pred maxC sizeT mem s =
      .done (s.result ++ ((bs ++ s.buf.drop bs.length).take 100).take p) := by
  unfold read_util_step; rw [h]; simp only
  rw [if_neg ht, hp]

/-- The continuing case: no predicate hit anywhere in the (whole, possibly
partially stale) buffer and room under `maxCount`: the full buffer is
appended and the address advances by the bytes actually read — in
particular a short read does NOT stop the loop. -/
lemma read_util_step_next {T : Type} (pred : T → Bool) (maxC sizeT : Nat)
    (mem : Nat → Option (List T)) (s : RuState T) (bs : List T)
    (h : mem s.addr = some bs)
    (hp : position pred ((bs ++ s.buf.drop bs.length).take 100) = none)
    (ht : ¬ s.result.length + posOf pred ((bs ++ s.buf.drop bs.length).take 100) > maxC) :
    read_util_step pred maxC sizeT mem s =
      .next ⟨(bs ++ s.buf.drop bs.length).take 100,
             s.result ++ (bs ++ s.buf.drop bs.length).take 100,
             s.addr + bs.length * sizeT⟩ := by
  unfold read_util_step; rw [h]; simp only
  rw [if_neg ht, hp]

/-- Loop invariant of `read_util`: the result never exceeds `maxCount`
elements and every element of it fails the predicate. -/
lemma read_util_loop_inv {T : Type} (pred : T → Bool) (maxC sizeT : Nat)
    (mem : Nat → Option (List T)) :
    ∀ (fuel : Nat) (s : RuState T),
      s.result.length ≤ maxC → (∀ x ∈ s.result, pred x = false) →
      (read_util_loop pred maxC sizeT mem fuel s).length ≤ maxC ∧
      ∀ x ∈ read_util_loop pred maxC sizeT mem fuel s, pred x = false := by
  intro fuel
  induction fuel with
  | zero => intro s h1 h2; exact ⟨h1, h2⟩
  | succ n ih =>
    intro s h1 h2
    have hloop : read_util_loop pred maxC sizeT mem (n + 1) s =
        match read_util_step pred maxC sizeT mem s with
        | .done r => r
        | .next s' => read_util_loop pred maxC sizeT mem n s' := rfl
    rw [hloop]
    cases hm : mem s.addr with
    | none => rw [read_util_step_none pred maxC sizeT mem s hm]; exact ⟨h1, h2⟩
    | some bs =>
      set buf := (bs ++ s.buf.drop bs.length).take 100 with hbuf
      by_cases htr : s.result.length + posOf pred buf > maxC
      · rw [read_util_step_trunc pred maxC sizeT mem s bs hm htr]
        constructor
        · rw [List.length_append, List.length_take]; omega
        · intro x hx
          rcases List.mem_append.1 hx with h | h
          · exact h2 x h
          · exact position_take pred buf (maxC - s.result.length) (by omega) x h
      · cases hp : position pred buf with
        | some p =>
          rw [read_util_step_hit pred maxC sizeT mem s bs p hm hp htr]
          have hple : p = posOf pred buf := by simp [posOf, hp]
          constructor
          · rw [List.length_append, List.length_take]; omega
          · intro x hx
            rcases List.mem_append.1 hx with h | h
            · exact h2 x h
            · exact position_take pred buf p (by omega) x h
        | none =>
          rw [read_util_step_next pred maxC sizeT mem s bs hm hp htr]
          have hposlen : posOf pred buf = buf.length := by simp [posOf, hp]
          refine ih ⟨buf, s.result ++ buf, s.addr + bs.length * sizeT⟩ ?_ ?_
          · simp only [List.length_append]; omega
          · intro x hx
            rcases List.mem_append.1 hx with h | h
            · exact h2 x h
            · exact position_none_all pred buf hp x h

lemma bpLookup_insert_self (m : BpMap) (id : Nat) (bp : Bp) :
    bpLookup (bpInsert m id bp) id = some bp := by
  simp [bpLookup, bpInsert, List.find?]

lemma bpLookup_remove_self (m : BpMap) (id : Nat) :
    bpLookup (bpRemove m id) id = none := by
  rw [bpLookup, Option.map_eq_none', List.find?_eq_none]
  intro p hp
  have := (List.mem_filter.1 hp).2
  simpa using this

lemma bp_exists_of_lookup (m : BpMap) (id : Nat) (bp : Bp)
    (h : bpLookup m id = some bp) : bp_exists m id = true := by
  simp [bp_exists, h]

/-- `enable_breadpoint` writes only the breakpoint's `enabled` cell: every
other field of the breakpoint it returns is unchanged. -/
lemma enable_breadpoint_fields (mem : Mem) (bp : Bp) (enable : Bool) :
    (enable_breadpoint mem bp enable).2.2.address = bp.address ∧
    (enable_breadpoint mem bp enable).2.2.temp = bp.temp ∧
    (enable_breadpoint mem bp enable).2.2.bpType = bp.bpType ∧
    (enable_breadpoint mem bp enable).2.2.hitCount = bp.hitCount ∧
    (enable_breadpoint mem bp enable).2.2.hitTid = bp.hitTid := by
  unfold enable_breadpoint
  rcases hb : bp.bpType with origin | _ | _
  · simp only [hb]
    rcases hw : memWrite mem bp.address (if enable then BP_INSN else origin) with ⟨w, mem'⟩
    cases w with
    | none => simp [hb]
    | some n =>
        by_cases hn : n > 0
        · simp [hn, hb]
        · simp [hn, hb]
  · simp [hb]
  · simp [hb]

/-- `read_value` in closed form: the value is returned exactly when the
read delivered the full size, and then it is exactly the bytes read. -/
lemma read_value_eq (sizeT : Nat) (mem : ReadOracle) (a : Nat) :
    read_value sizeT mem a =
      match mem a sizeT with
      | none => none
      | some bs => if bs.length = sizeT then some bs else none := by
  unfold read_value
  cases hm : mem a sizeT with
  | none => rfl
  | some bs =>
      simp only
      by_cases hl : bs.length = sizeT
      · rw [if_pos hl, if_pos hl]
        subst hl
        simp
      · rw [if_neg hl, if_neg hl]

/-! ## The claims -/

/-- C3: `read_value::<T>(a)` returns some `v` iff the underlying
`read_memory` of `size_of::<T>()` bytes at `a` returns a slice of length
exactly `size_of::<T>()`, and then `v` is exactly those bytes (copied over
a zero-initialised value); a failed read, or a read of fewer bytes, yields
none — never a value with an uninitialised tail. -/
theorem C3_read_value_atomicity (sizeT : Nat) (mem : ReadOracle) (a : Nat) :
    (∀ v, read_value sizeT mem a = some v ↔
        ∃ bs, mem a sizeT = some bs ∧ bs.length = sizeT ∧ v = bs) ∧
    (mem a sizeT = none → read_value sizeT mem a = none) ∧
    (∀ bs, mem a sizeT = some bs → bs.length ≠ sizeT →
        read_value sizeT mem a = none) := by
  simp only [read_value_eq]
  cases hm : mem a sizeT with
  | none => simp
  | some bs =>
      refine ⟨?_, by simp, ?_⟩
      · intro v
        by_cases hl : bs.length = sizeT
        · simp only [if_pos hl, Option.some.injEq]
          constructor
          · intro hv; exact ⟨bs, rfl, hl, hv.symm⟩
          · rintro ⟨bs', hbs', _, hv⟩
            cases hbs'
            exact hv.symm
        · simp only [if_neg hl]
          constructor
          · intro hv; cases hv
          · rintro ⟨bs', hbs', hlen, _⟩
            cases hbs'
            exact absurd hlen hl
      · intro bs' hbs' hlen
        cases hbs'
        simp [hlen]

/-- C3 witness: a concrete full read of 4 bytes yields the value, applying
the atomicity theorem. -/
theorem C3_read_value_atomicity_witness :
    read_value 4 (fun a n => if a = 0 ∧ n = 4 then some [1, 2, 3, 4] else none) 0 =
      some [1, 2, 3, 4] :=
  ((C3_read_value_atomicity 4
      (fun a n => if a = 0 ∧ n = 4 then some [1, 2, 3, 4] else none) 0).1
    [1, 2, 3, 4]).mpr ⟨[1, 2, 3, 4], by decide, by decide, rfl⟩

/-- C10: `write_cstring` returns none if either the payload write or the
terminating-zero write fails; otherwise it returns the sum of the two
reported lengths — payload length + 1 when both writes are complete. -/
theorem C10_write_cstring (wmem : WriteOracle) (a : Nat) (data : List Nat) :
    (wmem a data = none → write_cstring wmem a data = none) ∧
    (∀ r1, wmem a data = some r1 → wmem (a + data.length) [0] = none →
        write_cstring wmem a data = none) ∧
    (∀ r1 r2, wmem a data = some r1 → wmem (a + data.length) [0] = some r2 →
        write_cstring wmem a data = some (r1 + r2)) ∧
    (write_cstring wmem a data = none ↔
        wmem a data = none ∨
        ∃ r1, wmem a data = some r1 ∧ wmem (a + data.length) [0] = none) ∧
    (wmem a data = some data.length → wmem (a + data.length) [0] = some 1 →
        write_cstring wmem a data = some (data.length + 1)) := by
  unfold write_cstring
  cases h1 : wmem a data with
  | none => simp
  | some r1 =>
      cases h2 : wmem (a + data.length) [0] with
      | none => simp
      | some r2 =>
          simp
          intro h h'
          omega

/-- C10 witness: both writes succeed with full lengths on a concrete
oracle, so the sum is payload length + 1. -/
theorem C10_write_cstring_witness :
    write_cstring (fun _ bs => some bs.length) 7 [10, 20, 30] = some 4 :=
  (C10_write_cstring (fun _ bs => some bs.length) 7 [10, 20, 30]).2.2.2.2
    (by decide) (by decide)

/-- C9: at a SIGTRAP stop with cached pc 0, the dispatcher uses 0 itself as
the candidate breakpoint address; the `pc - 1` adjustment applies only when
`pc > 0`, and the candidate address never exceeds the pc, so the
computation never underflows the unsigned program-counter type. -/
theorem C9_sigtrap_pc_zero :
    (∀ (threads cloned : List Nat) (tid : Nat) (m : BpMap),
        (handle_stopped true threads cloned tid .SIGTRAP 0 m).2 = 0) ∧
    (∀ ip, 0 < ip → candidate_address .SIGTRAP ip = ip - 1) ∧
    (∀ sig ip, candidate_address sig ip ≤ ip) ∧
    candidate_address .SIGTRAP 0 = 0 := by
  refine ⟨?_, ?_, ?_, rfl⟩
  · intro threads cloned tid m
    unfold handle_stopped
    simp only [candidate_address]
    norm_num
    by_cases h : bp_exists m 0 <;> simp [h]
  · intro ip h
    simp [candidate_address, h]
  · intro sig ip
    unfold candidate_address
    split
    · omega
    · exact le_refl ip

/-- C9 witness: concrete instances of the guarded adjustment. -/
theorem C9_sigtrap_pc_zero_witness :
    candidate_address .SIGTRAP 3 = 2 ∧ candidate_address .SIGTRAP 0 = 0 :=
  ⟨C9_sigtrap_pc_zero.2.1 3 (by decide), C9_sigtrap_pc_zero.2.2.2⟩

/-- The candidate breakpoint address as claim C6 literally words it:
`pc - 1` whenever the signal is SIGTRAP (u64 wrapping subtraction), `pc`
otherwise — written from the claim, for comparison with the source's
`candidate_address`. -/
def candidate_address_claimC6 (sig : Sig) (ip : Nat) : Nat :=
  if sig = Sig.SIGTRAP then (ip + (2 ^ 64 - 1)) % 2 ^ 64 else ip

/-- C6 counterexample: at a SIGTRAP stop with pc = 0 the code rewrites the
pc to 0, not to `pc - 1` (which on the unsigned pc type would be
`2^64 - 1`): the claim's unconditional `pc - 1` is wrong at pc = 0. -/
theorem C6_counterexample :
    (handle_stopped true [] [] 5 .SIGTRAP 0 []).2 = 0 ∧
    candidate_address_claimC6 .SIGTRAP 0 = 2 ^ 64 - 1 ∧
    (handle_stopped true [] [] 5 .SIGTRAP 0 []).2 ≠
      candidate_address_claimC6 .SIGTRAP 0 := by
  refine ⟨by decide, by decide, by decide⟩

/-- C6 (amended): at a SIGTRAP/SIGILL stop (after the session is
initialised) the dispatcher computes the candidate breakpoint address as
`pc - 1` when the signal is SIGTRAP and `pc > 0`, and as `pc` otherwise;
it rewrites the cached pc to that address and enters the breakpoint
protocol exactly when the registry contains a breakpoint with that address
as id — otherwise the stop falls through to an Exception callback. -/
theorem C6_candidate_address (threads cloned : List Nat) (tid ip : Nat)
    (m : BpMap) (sig : Sig) (h : sig = Sig.SIGTRAP ∨ sig = Sig.SIGILL) :
    (handle_stopped true threads cloned tid sig ip m).2 = candidate_address sig ip ∧
    ((handle_stopped true threads cloned tid sig ip m).1 =
        .bpProtocol (candidate_address sig ip) ↔
      bp_exists m (candidate_address sig ip) = true) ∧
    (bp_exists m (candidate_address sig ip) = false →
      (handle_stopped true threads cloned tid sig ip m).1 = .exception sig) ∧
    (sig = .SIGTRAP → 0 < ip → candidate_address sig ip = ip - 1) ∧
    (sig = .SIGILL → candidate_address sig ip = ip) := by
  have hc : handle_stopped true threads cloned tid sig ip m =
      if bp_exists m (candidate_address sig ip) then
        (.bpProtocol (candidate_address sig ip), candidate_address sig ip)
      else (.exception sig, candidate_address sig ip) := by
    rcases h with hs | hs <;> subst hs <;> rfl
  rw [hc]
  by_cases hb : bp_exists m (candidate_address sig ip) = true
  · refine ⟨by simp [hb], by simp [hb], by simp [hb], ?_, ?_⟩
    · intro hs hip; simp [candidate_address, hs, hip]
    · intro hs; rcases h with h' | h' <;> subst hs <;> simp [candidate_address]
  · rw [Bool.not_eq_true] at hb
    refine ⟨by simp [hb], by simp [hb], by simp [hb], ?_, ?_⟩
    · intro hs hip; simp [candidate_address, hs, hip]
    · intro hs; subst hs; simp [candidate_address]

/-- C6 witness: a SIGTRAP at pc 4097 with a registered breakpoint at 4096
enters the breakpoint protocol at 4096. -/
theorem C6_candidate_address_witness :
    (handle_stopped true [] [] 5 .SIGTRAP 4097
        [(4096, ⟨4096, true, false, .Soft [0x90], 0, none⟩)]).2 =
      candidate_address .SIGTRAP 4097 ∧
    ((handle_stopped true [] [] 5 .SIGTRAP 4097
        [(4096, ⟨4096, true, false, .Soft [0x90], 0, none⟩)]).1 =
        .bpProtocol (candidate_address .SIGTRAP 4097) ↔
      bp_exists [(4096, ⟨4096, true, false, .Soft [0x90], 0, none⟩)]
        (candidate_address .SIGTRAP 4097) = true) := by
  have h := C6_candidate_address [] [] 5 4097
    [(4096, ⟨4096, true, false, .Soft [0x90], 0, none⟩)] .SIGTRAP (Or.inl rfl)
  exact ⟨h.1, h.2.1⟩

/-- `read_cstring` with an explicit cap, unfolded. -/
lemma read_cstring_some_cap (mem : Nat → Option (List Nat)) (a N : Nat) :
    read_cstring mem a (some N) =
      if (read_util_eq 0 0 N mem a).length = 0 ∨
          ((read_util_eq 0 0 N mem a).length = 1 ∧
            (read_util_eq 0 0 N mem a).headD 0 < 32) then none
      else some (read_util_eq 0 0 N mem a) := rfl

/-- C7: `read_cstring(a, N)` (N defaulting to 1000 when not supplied)
scans bytes with the predicate `elem == 0`, returns at most N bytes, any
Some result contains no zero byte, and it returns None exactly when the
scanned result is empty or is a single byte below the space character. -/
theorem C7_read_cstring_bound (mem : Nat → Option (List Nat)) (a N : Nat) :
    read_cstring mem a none = read_cstring mem a (some 1000) ∧
    (∀ v, read_cstring mem a (some N) = some v →
        v.length ≤ N ∧ ∀ x ∈ v, x ≠ 0) ∧
    (read_cstring mem a (some N) = none ↔
        read_util_eq 0 0 N mem a = [] ∨
        ((read_util_eq 0 0 N mem a).length = 1 ∧
          (read_util_eq 0 0 N mem a).headD 0 < 32)) := by
  have hinv := read_util_loop_inv (fun x : Nat => x == 0) N 1 mem (N + 2)
    ⟨List.replicate 100 0, [], a⟩ (by simp) (by simp)
  have hr : read_util_eq 0 0 N mem a =
      read_util_loop (fun x : Nat => x == 0) N 1 mem (N + 2)
        ⟨List.replicate 100 0, [], a⟩ := rfl
  refine ⟨rfl, ?_, ?_⟩
  · intro v hv
    rw [read_cstring_some_cap] at hv
    by_cases hc : (read_util_eq 0 0 N mem a).length = 0 ∨
        ((read_util_eq 0 0 N mem a).length = 1 ∧
          (read_util_eq 0 0 N mem a).headD 0 < 32)
    · rw [if_pos hc] at hv; cases hv
    · rw [if_neg hc] at hv
      cases hv
      rw [hr]
      refine ⟨hinv.1, fun x hx => ?_⟩
      have := hinv.2 x hx
      simpa using this
  · rw [read_cstring_some_cap]
    by_cases hc : (read_util_eq 0 0 N mem a).length = 0 ∨
        ((read_util_eq 0 0 N mem a).length = 1 ∧
          (read_util_eq 0 0 N mem a).headD 0 < 32)
    · rw [if_pos hc]
      simpa [List.length_eq_zero] using hc
    · rw [if_neg hc]
      simp only [List.length_eq_zero] at hc
      simpa using hc

/-- A concrete memory for the C7 witness: three bytes `[104, 105, 0]`
readable at address 0. -/
def memC7w : Nat → Option (List Nat) := fun a =>
  if a = 0 then some [104, 105, 0] else none

/-- C7 witness: a concrete C-string read returns the bytes before the
terminator, within the cap and zero-free. -/
theorem C7_read_cstring_bound_witness :
    read_cstring memC7w 0 (some 5) = some [104, 105] ∧
    ([104, 105] : List Nat).length ≤ 5 ∧ ∀ x ∈ ([104, 105] : List Nat), x ≠ 0 := by
  have h := (C7_read_cstring_bound memC7w 0 5).2.1 [104, 105] (by decide)
  exact ⟨by decide, h⟩

/-- C8 (amended): `read_util` repeatedly reads into a persistent
100-element buffer (initially zeroed), scans the WHOLE buffer — stale
elements beyond a short read included — and stops exactly on a predicate
hit, on `max_count` accumulated (truncating), or on a failed read; a read
that returns fewer elements than the full buffer does NOT end the loop: the
buffer prefix is overwritten, the whole buffer is appended, and the address
advances by the bytes actually read. -/
theorem C8_read_util_stop_conditions (pred : Nat → Bool) (maxCount sizeT : Nat)
    (mem : Nat → Option (List Nat)) (s : RuState Nat) :
    (mem s.addr = none → read_util_step pred maxCount sizeT mem s = .done s.result) ∧
    (∀ bs, mem s.addr = some bs →
      (position pred ((bs ++ s.buf.drop bs.length).take 100) = none →
        s.result.length + ((bs ++ s.buf.drop bs.length).take 100).length ≤ maxCount →
        read_util_step pred maxCount sizeT mem s =
          .next ⟨(bs ++ s.buf.drop bs.length).take 100,
                 s.result ++ (bs ++ s.buf.drop bs.length).take 100,
                 s.addr + bs.length * sizeT⟩) ∧
      (∀ p, position pred ((bs ++ s.buf.drop bs.length).take 100) = some p →
        s.result.length + p ≤ maxCount →
        read_util_step pred maxCount sizeT mem s =
          .done (s.result ++ ((bs ++ s.buf.drop bs.length).take 100).take p)) ∧
      (s.result.length + posOf pred ((bs ++ s.buf.drop bs.length).take 100) > maxCount →
        read_util_step pred maxCount sizeT mem s =
          .done (s.result ++
            ((bs ++ s.buf.drop bs.length).take 100).take
              (maxCount - s.result.length)))) := by
  refine ⟨fun h => read_util_step_none pred maxCount sizeT mem s h, ?_⟩
  intro bs hbs
  refine ⟨?_, ?_, ?_⟩
  · intro hpos hlen
    have hposof : posOf pred ((bs ++ s.buf.drop bs.length).take 100) =
        ((bs ++ s.buf.drop bs.length).take 100).length := by simp [posOf, hpos]
    exact read_util_step_next pred maxCount sizeT mem s bs hbs hpos (by omega)
  · intro p hp hle
    have hposof : posOf pred ((bs ++ s.buf.drop bs.length).take 100) = p := by
      simp [posOf, hp]
    exact read_util_step_hit pred maxCount sizeT mem s bs p hbs hp (by omega)
  · intro hgt
    exact read_util_step_trunc pred maxCount sizeT mem s bs hbs hgt

/-- Modelled from the spec (claim C8's wording): a read-until that scans
each fetched buffer, concatenates the prefixes before the first
predicate-satisfying element, and stops on a predicate hit, on `max_count`
accumulated, or on the first read that fails OR returns fewer elements than
the full 100-element request. -/
def read_util_claimC8_loop (pred : Nat → Bool) (maxCount : Nat)
    (mem : Nat → Option (List Nat)) : Nat → Nat → List Nat → List Nat
  | 0, _, acc => acc
  | fuel + 1, addr, acc =>
      match mem addr with
      | none => acc
      | some bs =>
          if acc.length + posOf pred bs > maxCount then
            acc ++ bs.take (maxCount - acc.length)
          else
            match position pred bs with
            | some p => acc ++ bs.take p
            | none =>
                if bs.length < 100 then acc ++ bs
                else read_util_claimC8_loop pred maxCount mem fuel
                  (addr + bs.length) (acc ++ bs)

/-- Modelled from the spec (claim C8's wording): entry point of the
stop-on-short-read reading of `read_util`. -/
def read_util_claimC8 (pred : Nat → Bool) (maxCount : Nat)
    (mem : Nat → Option (List Nat)) (address : Nat) : List Nat :=
  read_util_claimC8_loop pred maxCount mem (maxCount + 2) address []

/-- A concrete memory for the C8 counterexample: a single byte readable at
address 0 (a short read for the 100-byte request), nothing after it. -/
def memC8cx : Nat → Option (List Nat) := fun a => if a = 0 then some [1] else none

set_option maxRecDepth 40000 in
/-- C8 counterexample: after the short one-byte read at address 0 the
source's `read_util` does not stop — it appends the whole 100-element
buffer (99 stale zeroed elements included) and issues a second read — so
its result differs from the claim's stop-on-short-read behaviour, which
returns only the one byte actually read. -/
theorem C8_counterexample :
    read_util 0 (fun x => x == 7) 300 1 memC8cx 0 ≠
      read_util_claimC8 (fun x => x == 7) 300 memC8cx 0 ∧
    (read_util 0 (fun x => x == 7) 300 1 memC8cx 0).length = 100 ∧
    (read_util_claimC8 (fun x => x == 7) 300 memC8cx 0).length = 1 := by
  refine ⟨by decide, by decide, by decide⟩

set_option maxRecDepth 40000 in
/-- C8 witness: the continuing case of the step characterisation at a
concrete short read — one byte read, the loop continues at address 1. -/
theorem C8_read_util_stop_conditions_witness :
    read_util_step (fun x => x == 7) 300 1 memC8cx
        ⟨List.replicate 100 (0 : Nat), [], 0⟩ =
      .next ⟨([1] ++ (List.replicate 100 (0 : Nat)).drop 1).take 100,
             [] ++ ([1] ++ (List.replicate 100 (0 : Nat)).drop 1).take 100,
             0 + 1 * 1⟩ := by
  have h := (C8_read_util_stop_conditions (fun x => x == 7) 300 1 memC8cx
      ⟨List.replicate 100 (0 : Nat), [], 0⟩).2 [1] (by decide)
  exact h.1 (by decide) (by decide)

/-- `add_bp` fails `BpExists` with the state unchanged when the address is
already registered (on a target that is not merely opened). -/
lemma add_bp_exists_err (st : DbgState) (opt : BpOpt) (h0 : st.opened = false)
    (h : bp_exists st.bpMap opt.address = true) :
    add_bp st opt = (.error .BpExists, st) := by
  unfold add_bp
  rw [h0, h]
  simp

/-- C1: on a delivered hit of a temp breakpoint, `handle_breakpoint`
increments its hit count and removes it from the registry before the user
callback is invoked with the `Breakpoint` event: at the callback the
registry contains no entry for its address, so the address is free to be
re-added. -/
theorem C1_temp_bp_single_shot (mem : Mem) (m : BpMap) (a : Nat) (bp : Bp)
    (h : bpLookup m a = some bp) (ht : bp.temp = true) (ha : bp.address = a) :
    ∃ mem' m' bp', handle_breakpoint_pre mem m a = some (mem', m', bp') ∧
      bp'.hitCount = bp.hitCount + 1 ∧
      bp'.temp = true ∧
      bpLookup m' a = none ∧
      bp_exists m' a = false := by
  unfold handle_breakpoint_pre bp_remove_obj
  rw [h]
  simp only
  rw [if_pos (show ({ bp with hitCount := bp.hitCount + 1 } : Bp).temp = true from ht)]
  refine ⟨_, _, _, rfl, ?_, ?_, ?_, ?_⟩
  · have hf := enable_breadpoint_fields mem { bp with hitCount := bp.hitCount + 1 } false
    exact hf.2.2.2.1
  · have hf := enable_breadpoint_fields mem { bp with hitCount := bp.hitCount + 1 } false
    exact hf.2.1.trans ht
  · have haddr : ({ bp with hitCount := bp.hitCount + 1 } : Bp).address = a := ha
    rw [haddr]
    exact bpLookup_remove_self _ a
  · have haddr : ({ bp with hitCount := bp.hitCount + 1 } : Bp).address = a := ha
    rw [haddr]
    simp [bp_exists, bpLookup_remove_self]

/-- A fully accessible memory whose bytes are all `0x90`, for the C1
witness. -/
def memC1w : Mem := ⟨fun _ => true, fun _ => true, fun _ => 0x90⟩

/-- C1 witness: a concrete temp breakpoint at address 16 is gone from the
registry at the moment of its first `Breakpoint` callback, its hit count
incremented. -/
theorem C1_temp_bp_single_shot_witness :
    ∃ mem' m' bp',
      handle_breakpoint_pre memC1w [(16, ⟨16, true, true, .Soft [0x90], 0, none⟩)] 16 =
        some (mem', m', bp') ∧
      bp'.hitCount = (⟨16, true, true, .Soft [0x90], 0, none⟩ : Bp).hitCount + 1 ∧
      bp'.temp = true ∧
      bpLookup m' 16 = none ∧
      bp_exists m' 16 = false :=
  C1_temp_bp_single_shot memC1w [(16, ⟨16, true, true, .Soft [0x90], 0, none⟩)] 16
    ⟨16, true, true, .Soft [0x90], 0, none⟩ (by decide) rfl rfl

/-- C4: `add_bp` fails `BpExists` (state unchanged) when the address is
already registered; fails `InvalidAddress` when the original instruction
bytes cannot be read; on success a Soft breakpoint saving those original
bytes is inserted under key `a`, after which a second `add_bp` at the same
address fails `BpExists` with the registry — in particular its size —
unchanged. -/
theorem C4_add_bp_uniqueness (st : DbgState) (opt : BpOpt) (h0 : st.opened = false) :
    (bp_exists st.bpMap opt.address = true →
      add_bp st opt = (.error .BpExists, st)) ∧
    (bp_exists st.bpMap opt.address = false → opt.rw = false →
      readv st.mem opt.address BP_INSN.length = none →
      add_bp st opt = (.error .InvalidAddress, st)) ∧
    (∀ origin, bp_exists st.bpMap opt.address = false → opt.rw = false →
      readv st.mem opt.address BP_INSN.length = some origin →
      ∃ bp' st', add_bp st opt = (.ok bp', st') ∧
        bpLookup st'.bpMap opt.address = some bp' ∧
        bp'.address = opt.address ∧
        bp'.bpType = .Soft origin ∧
        st'.opened = false ∧
        ∀ opt2 : BpOpt, opt2.address = opt.address →
          add_bp st' opt2 = (.error .BpExists, st') ∧
          (add_bp st' opt2).2.bpMap.length = st'.bpMap.length) := by
  refine ⟨fun h => add_bp_exists_err st opt h0 h, ?_, ?_⟩
  · intro hne hrw hread
    unfold add_bp
    rw [h0, hne, hrw, hread]
    simp
  · intro origin hne hrw hread
    have heq : add_bp st opt =
        (if opt.enable then
          (.ok (enable_breadpoint st.mem
                  ⟨opt.address, false, opt.temp, .Soft origin, 0, opt.tid⟩ true).2.2,
           { st with
              bpMap := bpInsert
                (bpInsert st.bpMap opt.address
                  ⟨opt.address, false, opt.temp, .Soft origin, 0, opt.tid⟩)
                opt.address
                (enable_breadpoint st.mem
                  ⟨opt.address, false, opt.temp, .Soft origin, 0, opt.tid⟩ true).2.2,
              mem := (enable_breadpoint st.mem
                  ⟨opt.address, false, opt.temp, .Soft origin, 0, opt.tid⟩ true).2.1 })
         else
          (.ok ⟨opt.address, false, opt.temp, .Soft origin, 0, opt.tid⟩,
           { st with
              bpMap := bpInsert st.bpMap opt.address
                ⟨opt.address, false, opt.temp, .Soft origin, 0, opt.tid⟩ })) := by
      unfold add_bp
      rw [h0, hne, hrw, hread]
      simp
    by_cases he : opt.enable = true
    · rw [he, if_pos rfl] at heq
      set bp0 : Bp := ⟨opt.address, false, opt.temp, .Soft origin, 0, opt.tid⟩ with hbp0
      have hf := enable_breadpoint_fields st.mem bp0 true
      refine ⟨_, _, heq, bpLookup_insert_self _ _ _, ?_, ?_, h0, ?_⟩
      · exact hf.1
      · exact hf.2.2.1
      · intro opt2 h2
        have hex : bp_exists
            (bpInsert (bpInsert st.bpMap opt.address bp0) opt.address
              (enable_breadpoint st.mem bp0 true).2.2) opt2.address = true := by
          rw [h2]
          exact bp_exists_of_lookup _ _ _ (bpLookup_insert_self _ _ _)
        have := add_bp_exists_err
          { st with
              bpMap := bpInsert (bpInsert st.bpMap opt.address bp0) opt.address
                (enable_breadpoint st.mem bp0 true).2.2,
              mem := (enable_breadpoint st.mem bp0 true).2.1 }
          opt2 h0 hex
        exact ⟨this, by rw [this]⟩
    · rw [Bool.not_eq_true] at he
      rw [he, if_neg (by simp)] at heq
      set bp0 : Bp := ⟨opt.address, false, opt.temp, .Soft origin, 0, opt.tid⟩ with hbp0
      refine ⟨_, _, heq, bpLookup_insert_self _ _ _, rfl, rfl, h0, ?_⟩
      intro opt2 h2
      have hex : bp_exists (bpInsert st.bpMap opt.address bp0) opt2.address = true := by
        rw [h2]
        exact bp_exists_of_lookup _ _ _ (bpLookup_insert_self _ _ _)
      have := add_bp_exists_err { st with bpMap := bpInsert st.bpMap opt.address bp0 }
        opt2 h0 hex
      exact ⟨this, by rw [this]⟩

/-- A fully accessible memory whose bytes are all `0x90`, for the C4
witness. -/
def memC4w : Mem := ⟨fun _ => true, fun _ => true, fun _ => 0x90⟩

/-- C4 witness: a successful concrete add at address 16 leaves the address
registered, and the second add at 16 fails `BpExists` with state (hence
registry size) unchanged. -/
theorem C4_add_bp_uniqueness_witness :
    bp_exists (add_bp ⟨[], memC4w, false⟩ ⟨16, true, false, none, false⟩).2.bpMap 16 = true ∧
    add_bp (add_bp ⟨[], memC4w, false⟩ ⟨16, true, false, none, false⟩).2
        ⟨16, true, false, none, false⟩ =
      (.error .BpExists, (add_bp ⟨[], memC4w, false⟩ ⟨16, true, false, none, false⟩).2) := by
  refine ⟨by decide, ?_⟩
  exact ((C4_add_bp_uniqueness (add_bp ⟨[], memC4w, false⟩ ⟨16, true, false, none, false⟩).2
      ⟨16, true, false, none, false⟩ (by decide)).1 (by decide))

/-- C5: for a Soft breakpoint, `enable_breadpoint` writes the trap pattern
(on) or the saved original bytes (off) through the memory-write primitive;
it sets the enabled flag exactly when the write succeeds, and on a failed
write it returns `MemoryError` leaving the flag (and memory) unchanged. -/
theorem C5_enable_breakpoint_flag (mem : Mem) (bp : Bp) (origin : List Nat)
    (enable : Bool) (h : bp.bpType = .Soft origin) :
    (mem.writable bp.address = true → (if enable then BP_INSN else origin) ≠ [] →
      enable_breadpoint mem bp enable =
        (.ok enable, writeBytes mem bp.address (if enable then BP_INSN else origin),
         { bp with enabled := enable })) ∧
    (mem.writable bp.address = false →
      enable_breadpoint mem bp enable = (.error .MemoryError, mem, bp)) := by
  constructor
  · intro hw hne
    unfold enable_breadpoint
    rw [h]
    simp only [memWrite, hw, if_true]
    have hlen : 0 < (if enable then BP_INSN else origin).length := List.length_pos.2 hne
    simp [hlen]
  · intro hw
    unfold enable_breadpoint
    rw [h]
    simp [memWrite, hw]

/-- A memory that refuses all writes, for the C5 witness. -/
def memC5ro : Mem := ⟨fun _ => true, fun _ => false, fun _ => 0x90⟩

/-- A fully accessible memory, for the C5 witness. -/
def memC5rw : Mem := ⟨fun _ => true, fun _ => true, fun _ => 0x90⟩

/-- C5 witness: enabling a concrete Soft breakpoint on writable memory
writes the trap and sets the flag; on unwritable memory it returns
`MemoryError` with flag and memory unchanged. -/
theorem C5_enable_breakpoint_flag_witness :
    enable_breadpoint memC5rw ⟨32, false, false, .Soft [0x90], 0, none⟩ true =
      (.ok true, writeBytes memC5rw 32 BP_INSN,
       ⟨32, true, false, .Soft [0x90], 0, none⟩) ∧
    enable_breadpoint memC5ro ⟨32, false, false, .Soft [0x90], 0, none⟩ true =
      (.error .MemoryError, memC5ro, ⟨32, false, false, .Soft [0x90], 0, none⟩) := by
  constructor
  · exact (C5_enable_breakpoint_flag memC5rw ⟨32, false, false, .Soft [0x90], 0, none⟩
      [0x90] true rfl).1 rfl (by decide)
  · exact (C5_enable_breakpoint_flag memC5ro ⟨32, false, false, .Soft [0x90], 0, none⟩
      [0x90] true rfl).2 rfl

/-- The memory for the C2 failing input: everything accessible; address 64
currently holds the trap byte `0xCC` (the breakpoint is enabled), all other
bytes are `0x90`. -/
def memC2 : Mem := ⟨fun _ => true, fun _ => true, fun a => if a = 64 then 0xCC else 0x90⟩

/-- The C2 failing input's breakpoint: enabled, non-temp, Soft with saved
original byte `0x90`, registered at its address 64. -/
def bpC2 : Bp := ⟨64, true, false, .Soft [0x90], 1, none⟩

/-- C2 (code bug, evaluated at the failing input): `handle_reply` on a
`Run` reply with the hit breakpoint's id supplied disables the enabled
breakpoint for the step-over, but never re-enables it — the re-enabling
line is commented out behind a `TODO` in the source — so after the handler
the breakpoint is left disabled and its address holds the original byte,
not the trap: a second execution of the address cannot fire the callback. -/
theorem C2_reply_handler_no_rearm :
    ((handle_reply ⟨[(64, bpC2)], memC2, false⟩ (.run true) (some 64)
        (fun _ => none) 65).2.bpMap.map fun p => (p.1, p.2.enabled)) = [(64, false)] ∧
    (handle_reply ⟨[(64, bpC2)], memC2, false⟩ (.run true) (some 64)
        (fun _ => none) 65).2.mem.content 64 = 0x90 := by
  refine ⟨by decide, by decide⟩

end Udbg
